import Mathlib

/-!
Verification development for the `go-logger` repository: a structured,
leveled logging facade.  The repository contains several successive
revisions of the same design: a `go-kit/log` based revision
(`src/unnamed/part_004`), and two `log/slog` based revisions
(`src/unnamed/part_003`, latest first), together with three revisions of
the functional-option configuration (`src/options.go`,
`src/unnamed/part_001`, `src/unnamed/part_000`).

Go strings are byte sequences; they are embedded as `List Char` (all the
strings involved are ASCII).  Side-effecting calls (writing a record,
`os.Exit`) are embedded as values describing the effect (an `Option`al
emitted record, an event trace).
-/

/-- Go strings embedded as character lists. -/
abbrev Str := List Char

/-- Coercion from Lean string literals to the `Str` embedding. -/
def str (s : String) : Str := s.data

/-- Key/value pair of a log record (both rendered as strings). -/
abbrev KV := Str × Str

/-- The severity levels of the logger.  Every revision defines the same six
levels `all, fatal, err, warn, info, debug`; the numeric encodings differ
per revision and are given by `levelNum` (go-kit revision) and `slogNum`
(slog revisions). -/
inductive Level : Type
  | All
  | Fatal
  | Err
  | Warn
  | Info
  | Debug
deriving DecidableEq, Repr

/-- Numeric encoding of the go-kit revision (`src/unnamed/part_004`):
`All Level = iota` gives `All=0, Fatal=1, Err=2, Warn=3, Info=4, Debug=5`;
a larger value is a less severe level. -/
def levelNum : Level → Nat
  | .All => 0
  | .Fatal => 1
  | .Err => 2
  | .Warn => 3
  | .Info => 4
  | .Debug => 5

/-- Numeric encoding of the slog revisions (`src/unnamed/part_003`):
`LevelAll = slog.Level(-10)`, `LevelFatal = slog.Level(12)`, and the
standard `slog` constants `Error=8, Warn=4, Info=0, Debug=-4`; a larger
value is a more severe level. -/
def slogNum : Level → Int
  | .All => -10
  | .Fatal => 12
  | .Err => 8
  | .Warn => 4
  | .Info => 0
  | .Debug => -4

/-- Canonical name of each level, from the `levelNames` map present
identically in every revision.  The go-kit revision's `Level.String`
looks the receiver up in that map (every level is a key, so the `"all"`
fallback for unknown keys is never taken). -/
def levelName : Level → Str
  | .All => str "all"
  | .Fatal => str "fatal"
  | .Err => str "err"
  | .Warn => str "warn"
  | .Info => str "info"
  | .Debug => str "debug"

/-- The `levelNames` map of the source as an association list, written in
declaration order.  The source iterates this map with `for l, name :=
range levelNames`; Go gives no guarantee on map iteration order (and
actively randomizes it), so functions that iterate the table take the
iteration order as an explicit list parameter, any permutation of
`levelTable` being a legal order. -/
def levelTable : List (Level × Str) :=
  [(Level.All, str "all"), (Level.Fatal, str "fatal"), (Level.Err, str "err"),
   (Level.Warn, str "warn"), (Level.Info, str "info"), (Level.Debug, str "debug")]

/-- The `strings.ToLower` of the source, restricted to the embedding. -/
def lowerStr (s : Str) : Str := s.map Char.toLower

/-- The loop body of `ParseLevel`: walk the table in the given iteration
order and return the first level whose name has the (already lowered)
input as a prefix (`strings.HasPrefix(name, s)`); if no entry matches,
return `All`. -/
def parseLevelFrom : List (Level × Str) → Str → Level
  | [], _ => Level.All
  | (l, name) :: rest, t => if t.isPrefixOf name then l else parseLevelFrom rest t

/-- `ParseLevel` of the source, instantiated with the declaration-order
iteration over `levelNames` (the source lowers the input once before the
loop). -/
def ParseLevel (s : Str) : Level := parseLevelFrom levelTable (lowerStr s)

/-- Dot-joining of source-name segments, `strings.Join(src, ".")`. -/
def dotJoin (xs : List Str) : Str := List.intercalate (str ".") xs

/-- The `L` struct of the go-kit revision (`src/unnamed/part_004`).  The
wrapped `log.Logger` is a logfmt (or JSON) writer holding bound key/value
pairs; go-kit's `log.With` appends pairs to that context and `Log` writes
the context followed by the call's pairs, in binding order.  The `ts` and
`caller` values are `log.Valuer`s resolved at write time; the embedding
receives their resolved strings as parameters of `gkNew`. -/
structure GKL : Type where
  ctx : List KV
  level : Level
  src : List Str
deriving DecidableEq, Repr

/-- The go-kit revision's constructor `New(w, name, level, format,
keyvals...)`: binds `ts` and `caller`, then the supplied static pairs, and
seeds the source list with `[name]`.  (`log.With(l, keyvals...)` is only
invoked when `keyvals` is non-empty, which coincides with appending.) -/
def gkNew (name : Str) (levelStr : Str) (keyvals : List KV) (tsVal callerVal : Str) : GKL :=
  { ctx := [(str "ts", tsVal), (str "caller", callerVal)] ++ keyvals
    level := ParseLevel levelStr
    src := [name] }

/-- The go-kit revision's `l.source()`: the dot-joined source segments. -/
def GKL.source (l : GKL) : Str := dotJoin l.src

/-- The go-kit revision's internal `log` method.  A `none` receiver models
the nil pointer; `bound` is the `lvl log.Logger` argument (the logger with
`src`, `level`, `msg` already bound by the public method); the result is
the emitted record's ordered key/value list, or `none` when nothing is
written. -/
def GKL.log (l : Option GKL) (level : Level) (bound : List KV) (keyvals : List KV) :
    Option (List KV) :=
  match l with
  | none => none
  | some l =>
    if levelNum level > levelNum l.level ∧ l.level ≠ Level.All then none
    else some (bound ++ keyvals)

/-- The go-kit revision's `Info`: binds `src`, `level`, `msg` onto the
logger and forwards the per-call pairs to `log`. -/
def GKL.info (l : GKL) (msg : Str) (keyvals : List KV) : Option (List KV) :=
  GKL.log (some l) Level.Info
    (l.ctx ++ [(str "src", l.source), (str "level", levelName Level.Info), (str "msg", msg)])
    keyvals

/-- `strings.TrimPrefix`: removes `pre` from the front of `s` when it is a
prefix, otherwise returns `s` unchanged.  The source's `caller` helper
applies it only when the configured trim string is non-empty, which gives
the same result (trimming the empty prefix is the identity). -/
def goTrimPre (s pre : Str) : Str :=
  if pre.isPrefixOf s then s.drop pre.length else s

/-- The `L` struct of the latest slog revision (first file of
`src/unnamed/part_003`).  `bound` holds the attributes bound on the
wrapped `slog.Logger` via `With`, and `minLevel` the handler's configured
minimum level (slog emits a record iff its level is `≥ minLevel`). -/
structure SL : Type where
  bound : List KV
  minLevel : Int
  src : List Str
  showCaller : Bool
  callerPrefixTrim : Str
deriving DecidableEq, Repr

/-- Rendering of a level value by the handler's `ReplaceAttr` hook: the
`levelNames` label when the value is a key of that map.  The fallback to
`slog.Level.String()` is not exercised by any defined level and is
represented by a placeholder. -/
def slogLevelLabel (n : Int) : Str :=
  if n = slogNum Level.All then levelName Level.All
  else if n = slogNum Level.Fatal then levelName Level.Fatal
  else if n = slogNum Level.Err then levelName Level.Err
  else if n = slogNum Level.Warn then levelName Level.Warn
  else if n = slogNum Level.Info then levelName Level.Info
  else if n = slogNum Level.Debug then levelName Level.Debug
  else str "UNKNOWN"

/-- The latest slog revision's internal `log` method.  A `none` receiver
models the nil pointer.  When `showCaller` is set, a `caller` attribute is
appended after the per-call pairs; `rawCaller` is the stack-resolved
`path/file:line` string produced by `stack.Caller`, to which the
configured prefix trim is applied.  Emission follows `log/slog`: the
handler writes the record iff `lvl ≥ minLevel`, and the text handler
renders the built-in attributes (`time` — renamed `ts` by `ReplaceAttr` —,
`level`, `msg`) first, then the logger's bound attributes, then the
per-record attributes, each as `key=value` in that order. -/
def SLlog (l : Option SL) (lvl : Int) (msg : Str) (keyvals : List KV)
    (rawCaller tsVal : Str) : Option (List KV) :=
  match l with
  | none => none
  | some l =>
    if l.minLevel ≤ lvl then
      some ([(str "ts", tsVal), (str "level", slogLevelLabel lvl), (str "msg", msg)]
        ++ l.bound
        ++ (if l.showCaller then
              keyvals ++ [(str "caller", goTrimPre rawCaller l.callerPrefixTrim)]
            else keyvals))
    else none

/-- `Debug` of the latest slog revision. -/
def SL.debug (l : Option SL) (msg : Str) (keyvals : List KV) (rawCaller tsVal : Str) :
    Option (List KV) :=
  SLlog l (slogNum Level.Debug) msg keyvals rawCaller tsVal

/-- `Info` of the latest slog revision. -/
def SL.info (l : Option SL) (msg : Str) (keyvals : List KV) (rawCaller tsVal : Str) :
    Option (List KV) :=
  SLlog l (slogNum Level.Info) msg keyvals rawCaller tsVal

/-- `Warn` of the latest slog revision. -/
def SL.warn (l : Option SL) (msg : Str) (keyvals : List KV) (rawCaller tsVal : Str) :
    Option (List KV) :=
  SLlog l (slogNum Level.Warn) msg keyvals rawCaller tsVal

/-- `Err` of the latest slog revision. -/
def SL.err (l : Option SL) (msg : Str) (keyvals : List KV) (rawCaller tsVal : Str) :
    Option (List KV) :=
  SLlog l (slogNum Level.Err) msg keyvals rawCaller tsVal

/-- Observable effects of a call: writing a record, or requesting process
termination with an exit status (`os.Exit`). -/
inductive Event : Type
  | write (r : List KV)
  | exit (code : Nat)
deriving DecidableEq, Repr

/-- `Fatal` of the latest slog revision as an event trace: `l.log(ctx,
LevelFatal, msg, keyvals...)` — which writes at most one record — followed
unconditionally by `os.Exit(1)`. -/
def SL.fatalTrace (l : Option SL) (msg : Str) (keyvals : List KV) (rawCaller tsVal : Str) :
    List Event :=
  (match SLlog l (slogNum Level.Fatal) msg keyvals rawCaller tsVal with
    | some r => [Event.write r]
    | none => []) ++ [Event.exit 1]

/-- Sub-logger derivation `(l *L) New(name)` of the latest slog revision:
appends `name` to the source segments, binds an updated `src` attribute
with the full dot-joined path, and copies the `showCaller` and
`callerPrefixTrim` settings (the wrapped `slogger`, and with it
`minLevel`, carries over). -/
def SL.newSub (l : SL) (name : Str) : SL :=
  { src := l.src ++ [name]
    bound := l.bound ++ [(str "src", dotJoin (l.src ++ [name]))]
    minLevel := l.minLevel
    showCaller := l.showCaller
    callerPrefixTrim := l.callerPrefixTrim }

/-- The `L` struct of the earlier slog revision (second file of
`src/unnamed/part_003`): the same shape but with no `callerPrefixTrim`
field. -/
structure SLold : Type where
  bound : List KV
  minLevel : Int
  src : List Str
  showCaller : Bool
deriving DecidableEq, Repr

/-- Sub-logger derivation `(l *L) New(name)` of the earlier slog revision:
the struct literal sets only `src` and `slogger`, so the child's
`showCaller` field is the Go zero value `false`, whatever the parent's
setting. -/
def SLold.newSub (l : SLold) (name : Str) : SLold :=
  { src := l.src ++ [name]
    bound := l.bound ++ [(str "src", dotJoin (l.src ++ [name]))]
    minLevel := l.minLevel
    showCaller := false }

/-- Value of the last binding of `key` in an ordered attribute list (the
binding that takes effect when duplicate keys are rendered by a consumer
keeping the most recent one). -/
def lastVal (key : Str) (kvs : List KV) : Option Str :=
  (kvs.reverse.find? (fun p => p.1 = key)).map Prod.snd

/-- Decimal digit characters, with an explicit recursion bound so that the
definition is structural (the bound `n + 1` used by `decDigits` is never
exhausted, as dividing by ten reaches a single digit within `n` steps). -/
def decDigitsAux (fuel n : Nat) : Str :=
  match fuel with
  | 0 => []
  | fuel + 1 =>
    if n < 10 then [Char.ofNat (48 + n)]
    else decDigitsAux fuel (n / 10) ++ [Char.ofNat (48 + n % 10)]

/-- Decimal digit characters of a natural number, most significant first
(the digits `fmt.Sprintf("%d", n)` would print). -/
def decDigits (n : Nat) : Str := decDigitsAux (n + 1) n

/-- `fmt.Sprintf("%02d", n)`: the decimal digits, left-padded with `'0'`
to a minimum width of two. -/
def pad2 (n : Nat) : Str :=
  if n < 10 then '0' :: decDigits n else decDigits n

/-- An `error` value as seen by `LogError`: either a plain error (the
dynamic type does not implement `WrappedErrors() []error`), carrying its
`Error()` message, or a multi-error, carrying the list of its wrapped
errors' `Error()` messages in order. -/
inductive GoErr : Type
  | plain (msg : Str)
  | multi (wrapped : List Str)
deriving DecidableEq, Repr

/-- The error pairs `LogError` appends to the caller's pairs: a single
`error` pair carrying `err.Error()` for a plain error, and one
`fmt.Sprintf("error_%02d", i)` pair per wrapped error, in the wrapped
list's order, for a multi-error. -/
def errFields : GoErr → List KV
  | .plain m => [(str "error", m)]
  | .multi ws => ws.enum.map (fun p => (str "error_" ++ pad2 p.1, p.2))

/-- The per-call key/value list that the latest revision's `LogError`
hands to `log`: in both branches the caller's pairs with the error pairs
appended (`keyvals = append(keyvals, ...)`). -/
def logErrorKeyvals (err : GoErr) (keyvals : List KV) : List KV :=
  keyvals ++ errFields err

/-- `LogError(msg, err, keyvals...)` of the latest slog revision: in both
branches the record is submitted at `slog.LevelError` with the keyvals
computed by `logErrorKeyvals`. -/
def SL.logError (l : Option SL) (msg : Str) (err : GoErr) (keyvals : List KV)
    (rawCaller tsVal : Str) : Option (List KV) :=
  SLlog l (slogNum Level.Err) msg (logErrorKeyvals err keyvals) rawCaller tsVal

/-- The functional option mutators exported by the newest options file
(`src/unnamed/part_000`); the earlier options revisions
(`src/unnamed/part_001`, `src/options.go`) export subsets with identical
bodies.  The destination writer is identified by an opaque tag, and a
`WithTimeLocation` formatter by its location's name. -/
inductive OptM : Type
  | withFormat (format : Str)
  | withKV (keyvals : List KV)
  | withLevel (level : Str)
  | withDestination (w : Nat)
  | withName (name : Str)
  | withCaller (showCaller : Bool)
  | withTimeLocation (loc : Str)
  | withCallerPrefixTrim (s : Str)
deriving DecidableEq, Repr

/-- The `options` record the mutators act on (`src/unnamed/part_000`).
`timeFormatter` is `none` when unset, mirroring the nil function field. -/
structure Options : Type where
  format : Str
  name : Str
  keyvals : List KV
  level : Str
  destination : Nat
  showCaller : Bool
  callerPrefixTrim : Str
  timeFormatter : Option Str
deriving DecidableEq, Repr

/-- Application of one option mutator, each case the body of the
corresponding `With*` function.  `With` assigns `o.keyvals = keyvals`
outright; `WithCallerPrefixTrim` ignores the empty string and appends a
`"/"` when the argument does not already end in one. -/
def applyOpt (o : Options) : OptM → Options
  | .withFormat f => { o with format := f }
  | .withKV kvs => { o with keyvals := kvs }
  | .withLevel lv => { o with level := lv }
  | .withDestination w => { o with destination := w }
  | .withName n => { o with name := n }
  | .withCaller b => { o with showCaller := b }
  | .withTimeLocation loc => { o with timeFormatter := some loc }
  | .withCallerPrefixTrim s =>
    if s = [] then o
    else { o with callerPrefixTrim := if s.getLast? = some '/' then s else s ++ [ '/' ] }

/-- Whether a mutator is a `With(...)` static-field option. -/
def isWithKV : OptM → Bool
  | .withKV _ => true
  | _ => false

/-- The defaults the latest revision's `New` seeds before applying the
mutators in call order: destination `os.Stdout` (tag `0`), name
`filepath.Base(os.Args[0])` (passed in as `procName`), `showCaller`
enabled.  The time-formatter defaulting probes the wall clock and is not
part of any claim. -/
def defaultOptions (procName : Str) : Options :=
  { format := []
    name := procName
    keyvals := []
    level := []
    destination := 0
    showCaller := true
    callerPrefixTrim := []
    timeFormatter := none }

/-- `New`'s option-application loop: `for _, o := range opts { o(opt) }`. -/
def applyOpts (opts : List OptM) (o : Options) : Options :=
  opts.foldl applyOpt o

/-- The logger handle the latest slog revision's `New` returns: the
wrapped `slog.Logger` is bound with `opt.keyvals` followed by a `src`
attribute equal to `opt.name`; the handle's source list is `[opt.name]`
and the caller settings come from the options.  The handler's minimum
level comes from `opt.leveler`, a field added by an options revision not
present in the sources, so the constructed handle takes it as the
`minLevel` parameter. -/
def slNew (opts : List OptM) (procName : Str) (minLevel : Int) : SL :=
  { bound := (applyOpts opts (defaultOptions procName)).keyvals
      ++ [(str "src", (applyOpts opts (defaultOptions procName)).name)]
    minLevel := minLevel
    src := [(applyOpts opts (defaultOptions procName)).name]
    showCaller := (applyOpts opts (defaultOptions procName)).showCaller
    callerPrefixTrim := (applyOpts opts (defaultOptions procName)).callerPrefixTrim }

/-- Modelled from the spec's words (claim C3), for comparison with the
embedded formatters: the asserted logfmt key order — time first, then the
caller field, then the remaining bound fields in binding order, then
level, then msg, then the call-site fields. -/
def specLogfmtKeyOrder (boundKeys callKeys : List Str) : List Str :=
  str "ts" :: str "caller" :: (boundKeys ++ (str "level" :: str "msg" :: callKeys))

/-- A legal iteration order over the `levelNames` map that happens to
visit the `fatal` entry first (Go randomizes the starting point of a map
range, so any permutation of the entries can occur). -/
def fatalFirstTable : List (Level × Str) :=
  [(Level.Fatal, str "fatal"), (Level.All, str "all"), (Level.Err, str "err"),
   (Level.Warn, str "warn"), (Level.Info, str "info"), (Level.Debug, str "debug")]

/-- A concrete go-kit logger at threshold `warn` with no static fields. -/
def gklEx : GKL :=
  { ctx := [], level := Level.Warn, src := [str "app"] }

/-- A concrete slog logger at threshold `warn`. -/
def slWarnEx : SL :=
  { bound := [], minLevel := slogNum Level.Warn, src := [str "app"]
    showCaller := false, callerPrefixTrim := [] }

/-- A concrete slog logger shaped like the test fixture: static field
`key1=value1`, name `somelogger`, threshold `info`, caller display on. -/
def slogEx : SL :=
  { bound := [(str "key1", str "value1"), (str "src", str "somelogger")]
    minLevel := slogNum Level.Info
    src := [str "somelogger"]
    showCaller := true
    callerPrefixTrim := [] }

/-- The test fixture logger again, with caller display turned off. -/
def slogExNoCaller : SL :=
  { bound := [(str "key1", str "value1"), (str "src", str "somelogger")]
    minLevel := slogNum Level.Info
    src := [str "somelogger"]
    showCaller := false
    callerPrefixTrim := [] }

/-- A concrete parent logger of the earlier slog revision with caller
display enabled. -/
def sloldEx : SLold :=
  { bound := [(str "src", str "somelogger")], minLevel := slogNum Level.Info
    src := [str "somelogger"], showCaller := true }

theorem parseLevelFrom_eq_all_of_none (tab : List (Level × Str)) (t : Str)
    (h : ∀ e ∈ tab, ¬ t.isPrefixOf e.2 = true) : parseLevelFrom tab t = Level.All := by
  induction tab with
  | nil => rfl
  | cons a rest ih =>
    obtain ⟨l, name⟩ := a
    simp only [parseLevelFrom]
    rw [if_neg]
    · exact ih fun e he => h e (List.mem_cons_of_mem _ he)
    · exact fun hc => h ⟨l, name⟩ (List.mem_cons_self _ _) hc

theorem parseLevelFrom_eq_of_unique (tab : List (Level × Str)) (t : Str) (e : Level × Str)
    (he : e ∈ tab) (hm : t.isPrefixOf e.2 = true)
    (huniq : ∀ e2 ∈ tab, t.isPrefixOf e2.2 = true → e2 = e) :
    parseLevelFrom tab t = e.1 := by
  induction tab with
  | nil => cases he
  | cons a rest ih =>
    obtain ⟨l, name⟩ := a
    simp only [parseLevelFrom]
    by_cases hc : t.isPrefixOf name = true
    · have : (⟨l, name⟩ : Level × Str) = e := huniq _ (List.mem_cons_self _ _) hc
      rw [if_pos hc, ← this]
    · rw [if_neg hc]
      rcases List.mem_cons.mp he with h' | h'
      · subst h'
        exact absurd hm hc
      · exact ih h' fun e2 he2 hm2 => huniq e2 (List.mem_cons_of_mem _ he2) hm2

theorem levelTable_match_unique (c : Char) (t : Str) (e1 e2 : Level × Str)
    (h1 : e1 ∈ levelTable) (h2 : e2 ∈ levelTable)
    (m1 : (c :: t).isPrefixOf e1.2 = true) (m2 : (c :: t).isPrefixOf e2.2 = true) :
    e1 = e2 := by
  fin_cases h1 <;> fin_cases h2 <;> simp_all [levelTable, str, List.isPrefixOf]

theorem parseLevelFrom_perm (t : Str) (ht : t ≠ []) (tab1 tab2 : List (Level × Str))
    (h1 : tab1.Perm levelTable) (h2 : tab2.Perm levelTable) :
    parseLevelFrom tab1 t = parseLevelFrom tab2 t := by
  obtain ⟨c, t', rfl⟩ : ∃ c t', t = c :: t' := by
    cases t with
    | nil => exact absurd rfl ht
    | cons c t' => exact ⟨c, t', rfl⟩
  by_cases hx : ∃ e ∈ levelTable, (c :: t').isPrefixOf e.2 = true
  · obtain ⟨e, he, hm⟩ := hx
    have key : ∀ tab, tab.Perm levelTable → parseLevelFrom tab (c :: t') = e.1 := by
      intro tab hp
      exact parseLevelFrom_eq_of_unique tab _ e (hp.mem_iff.mpr he) hm
        (fun e2 he2 hm2 => levelTable_match_unique c t' e2 e (hp.mem_iff.mp he2) he hm2 hm)
    rw [key tab1 h1, key tab2 h2]
  · push_neg at hx
    have key : ∀ tab, tab.Perm levelTable → parseLevelFrom tab (c :: t') = Level.All := by
      intro tab hp
      refine parseLevelFrom_eq_all_of_none tab _ (fun e he => ?_)
      have := hx e (hp.mem_iff.mp he)
      simpa using this
    rw [key tab1 h1, key tab2 h2]

theorem parseLevelFrom_levelName (l : Level) (tab : List (Level × Str))
    (hp : tab.Perm levelTable) : parseLevelFrom tab (levelName l) = l := by
  have hne : levelName l ≠ [] := by cases l <;> decide
  obtain ⟨c, t', hct⟩ : ∃ c t', levelName l = c :: t' := by
    cases hh : levelName l with
    | nil => exact absurd hh hne
    | cons c t' => exact ⟨c, t', rfl⟩
  have he : (l, levelName l) ∈ levelTable := by cases l <;> decide
  have hm : (levelName l).isPrefixOf (levelName l) = true := by cases l <;> decide
  exact parseLevelFrom_eq_of_unique tab (levelName l) (l, levelName l)
    (hp.mem_iff.mpr he) hm
    (fun e2 he2 hm2 => levelTable_match_unique c t' e2 (l, levelName l)
      (hp.mem_iff.mp he2) he (hct ▸ hm2) (hct ▸ hm))

theorem decDigits_ne_nil (n : Nat) : decDigits n ≠ [] := by
  show decDigitsAux (n + 1) n ≠ []
  simp only [decDigitsAux]
  split
  · simp
  · simp

theorem pad2_ne_nil (n : Nat) : pad2 n ≠ [] := by
  unfold pad2
  split
  · simp
  · exact decDigits_ne_nil n

theorem errorKey_ne_error (i : Nat) : str "error_" ++ pad2 i ≠ str "error" := by
  intro h
  have hl := congrArg List.length h
  rw [List.length_append] at hl
  have h6 : (str "error_").length = 6 := rfl
  have h5 : (str "error").length = 5 := rfl
  have h1 : 0 < (pad2 i).length := List.length_pos.mpr (pad2_ne_nil i)
  omega

theorem GKL_log_isSome (gl : GKL) (M : Level) (bound keyvals : List KV) :
    (GKL.log (some gl) M bound keyvals).isSome = true ↔
      (levelNum M ≤ levelNum gl.level ∨ gl.level = Level.All) := by
  simp only [GKL.log]
  by_cases hc : levelNum M > levelNum gl.level ∧ gl.level ≠ Level.All
  · rw [if_pos hc]
    simp only [Option.isSome_none, Bool.false_eq_true, false_iff]
    push_neg
    obtain ⟨hc1, hc2⟩ := hc
    exact ⟨by omega, hc2⟩
  · rw [if_neg hc]
    simp only [Option.isSome_some, true_iff]
    push_neg at hc
    by_cases h2 : levelNum M ≤ levelNum gl.level
    · exact Or.inl h2
    · exact Or.inr (hc (by omega))

theorem SLlog_isSome (sl : SL) (lvl : Int) (msg : Str) (keyvals : List KV) (rc tv : Str) :
    (SLlog (some sl) lvl msg keyvals rc tv).isSome = true ↔ sl.minLevel ≤ lvl := by
  simp only [SLlog]
  by_cases hc : sl.minLevel ≤ lvl
  · rw [if_pos hc]
    simp [hc]
  · rw [if_neg hc]
    simp [hc]

theorem slog_vs_gokit_order (M T : Level) (hM : M ≠ Level.All) :
    slogNum T ≤ slogNum M ↔ (levelNum M ≤ levelNum T ∨ T = Level.All) := by
  cases M <;> cases T <;> first | exact absurd rfl hM | decide

theorem applyOpt_keyvals_of_not_with (o : Options) (m : OptM) (h : isWithKV m = false) :
    (applyOpt o m).keyvals = o.keyvals := by
  cases m <;> try rfl
  · simp [isWithKV] at h
  · simp only [applyOpt]
    split <;> rfl

theorem applyOpts_keyvals_of_not_with (opts : List OptM) (o : Options)
    (h : ∀ m ∈ opts, isWithKV m = false) :
    (applyOpts opts o).keyvals = o.keyvals := by
  induction opts generalizing o with
  | nil => rfl
  | cons a rest ih =>
    simp only [applyOpts, List.foldl_cons] at *
    rw [ih (applyOpt o a) (fun m hm => h m (List.mem_cons_of_mem _ hm)),
      applyOpt_keyvals_of_not_with o a (h a (List.mem_cons_self _ _))]

/-- Claim C6: `parseLevel` applied to a defined level's canonical string
name returns that level again, `parseLevel(L.String()) == L`, under every
legal iteration order over the `levelNames` map. -/
theorem parseLevel_string_roundtrip (l : Level) (tab : List (Level × Str))
    (hp : tab.Perm levelTable) :
    parseLevelFrom tab (lowerStr (levelName l)) = l := by
  have hl : lowerStr (levelName l) = levelName l := by cases l <;> decide
  rw [hl]
  exact parseLevelFrom_levelName l tab hp

/-- Witness for C6: the canonical name of `debug`, parsed with the
declaration-order table, yields `debug` again. -/
theorem parseLevel_string_roundtrip_witness :
    parseLevelFrom levelTable (lowerStr (levelName Level.Debug)) = Level.Debug :=
  parseLevel_string_roundtrip Level.Debug levelTable (List.Perm.refl _)

/-- Claim C7, amended: an input that is not a case-insensitive prefix of
any canonical level name parses to the permissive `all` level, under
every legal iteration order.  (The empty input is excluded: it is a
prefix of every name, and the level returned is the first entry of the
unspecified map iteration order — see the counterexample.) -/
theorem parseLevel_unmatched_returns_all (s : Str)
    (h : ∀ e ∈ levelTable, ¬ (lowerStr s).isPrefixOf e.2 = true)
    (tab : List (Level × Str)) (hp : tab.Perm levelTable) :
    parseLevelFrom tab (lowerStr s) = Level.All :=
  parseLevelFrom_eq_all_of_none tab _ (fun e he => h e (hp.mem_iff.mp he))

/-- Witness for C7: the unrecognized input `"xyz"` resolves to `all`. -/
theorem parseLevel_unmatched_returns_all_witness :
    parseLevelFrom levelTable (lowerStr (str "xyz")) = Level.All :=
  parseLevel_unmatched_returns_all (str "xyz") (by decide) levelTable (List.Perm.refl _)

/-- Counterexample for C7 as stated: the empty input is a prefix of every
canonical name, so under the legal map iteration order that visits the
`fatal` entry first, `ParseLevel("")` returns `fatal`, not `all`. -/
theorem parseLevel_empty_input_cex :
    fatalFirstTable.Perm levelTable
    ∧ parseLevelFrom fatalFirstTable (lowerStr (str "")) = Level.Fatal
    ∧ Level.Fatal ≠ Level.All := by
  refine ⟨by decide, by decide, by decide⟩

/-- Claim C10: on a non-empty input, at most one entry of the
`levelNames` table has the lower-cased input as a prefix (the canonical
names' first letters are pairwise distinct), so `ParseLevel` returns the
same level under any two legal iteration orders over the map. -/
theorem parseLevel_deterministic_nonempty (s : Str) (hs : s ≠ [])
    (tab1 tab2 : List (Level × Str))
    (h1 : tab1.Perm levelTable) (h2 : tab2.Perm levelTable) :
    (∀ e1 ∈ levelTable, ∀ e2 ∈ levelTable,
        (lowerStr s).isPrefixOf e1.2 = true → (lowerStr s).isPrefixOf e2.2 = true →
        e1 = e2)
    ∧ parseLevelFrom tab1 (lowerStr s) = parseLevelFrom tab2 (lowerStr s) := by
  have hls : lowerStr s ≠ [] := by
    cases s with
    | nil => exact absurd rfl hs
    | cons a as => simp [lowerStr]
  obtain ⟨c, t', hct⟩ : ∃ c t', lowerStr s = c :: t' := by
    cases hh : lowerStr s with
    | nil => exact absurd hh hls
    | cons c t' => exact ⟨c, t', rfl⟩
  constructor
  · intro e1 he1 e2 he2 m1 m2
    exact levelTable_match_unique c t' e1 e2 he1 he2 (hct ▸ m1) (hct ▸ m2)
  · exact parseLevelFrom_perm _ hls tab1 tab2 h1 h2

/-- Witness for C10: the non-empty input `"Inf"` parses identically under
the declaration order and under the order visiting `fatal` first, and
matches at most one table entry. -/
theorem parseLevel_deterministic_nonempty_witness :
    (∀ e1 ∈ levelTable, ∀ e2 ∈ levelTable,
        (lowerStr (str "Inf")).isPrefixOf e1.2 = true →
        (lowerStr (str "Inf")).isPrefixOf e2.2 = true → e1 = e2)
    ∧ parseLevelFrom fatalFirstTable (lowerStr (str "Inf"))
        = parseLevelFrom levelTable (lowerStr (str "Inf")) :=
  parseLevel_deterministic_nonempty (str "Inf") (by decide)
    fatalFirstTable levelTable (by decide) (List.Perm.refl _)

/-- Claim C1: on a logger configured at threshold `T`, a message logged at
level `M` is emitted iff `M` is at or below `T` in the severity ordering
(in the go-kit encoding, numerically smaller is more severe) or `T` is the
`all` sentinel, and a message strictly less severe than a non-`all`
threshold produces no output; this holds for both the go-kit revision's
explicit filter and for the slog revisions' handler threshold. -/
theorem emission_iff_severity_or_all (M T : Level) (hM : M ≠ Level.All)
    (gl : GKL) (hgl : gl.level = T) (sl : SL) (hsl : sl.minLevel = slogNum T)
    (bound keyvals : List KV) (msg rawCaller tsVal : Str) :
    ((GKL.log (some gl) M bound keyvals).isSome = true ↔
      (levelNum M ≤ levelNum T ∨ T = Level.All))
    ∧ ((SLlog (some sl) (slogNum M) msg keyvals rawCaller tsVal).isSome = true ↔
      (levelNum M ≤ levelNum T ∨ T = Level.All))
    ∧ (T ≠ Level.All → levelNum T < levelNum M →
        GKL.log (some gl) M bound keyvals = none
        ∧ SLlog (some sl) (slogNum M) msg keyvals rawCaller tsVal = none) := by
  refine ⟨?_, ?_, ?_⟩
  · rw [GKL_log_isSome, hgl]
  · rw [SLlog_isSome, hsl]
    exact slog_vs_gokit_order M T hM
  · intro hT hlt
    constructor
    · refine Option.not_isSome_iff_eq_none.mp ?_
      rw [GKL_log_isSome, hgl]
      rintro (h | h)
      · omega
      · exact hT h
    · refine Option.not_isSome_iff_eq_none.mp ?_
      rw [SLlog_isSome, hsl, slog_vs_gokit_order M T hM]
      rintro (h | h)
      · omega
      · exact hT h

/-- Witness for C1: an `info` message against a `warn` threshold, in both
revisions (it is filtered out, `info` being strictly less severe). -/
theorem emission_iff_severity_or_all_witness :
    Level.Info ≠ Level.All
    ∧ (((GKL.log (some gklEx) Level.Info [] []).isSome = true ↔
        (levelNum Level.Info ≤ levelNum Level.Warn ∨ Level.Warn = Level.All))
      ∧ (((SLlog (some slWarnEx) (slogNum Level.Info) (str "m") [] (str "c")
            (str "t")).isSome = true) ↔
        (levelNum Level.Info ≤ levelNum Level.Warn ∨ Level.Warn = Level.All))
      ∧ (Level.Warn ≠ Level.All → levelNum Level.Warn < levelNum Level.Info →
          GKL.log (some gklEx) Level.Info [] [] = none
          ∧ SLlog (some slWarnEx) (slogNum Level.Info) (str "m") [] (str "c")
              (str "t") = none)) :=
  ⟨by decide,
    emission_iff_severity_or_all Level.Info Level.Warn (by decide) gklEx rfl
      slWarnEx rfl [] [] (str "m") (str "c") (str "t")⟩

/-- Claim C2, amended: `Debug`, `Info`, `Warn`, `Err` and `LogError` on
the nil handle are safe no-ops — no output, no effect; `Fatal` on the nil
handle writes no output and does not fault, but it still requests process
termination with status 1 (the `os.Exit(1)` call follows the guarded
`log`). -/
theorem nil_logging_methods_noop (msg : Str) (err : GoErr) (keyvals : List KV)
    (rawCaller tsVal : Str) :
    SL.debug none msg keyvals rawCaller tsVal = none
    ∧ SL.info none msg keyvals rawCaller tsVal = none
    ∧ SL.warn none msg keyvals rawCaller tsVal = none
    ∧ SL.err none msg keyvals rawCaller tsVal = none
    ∧ SL.logError none msg err keyvals rawCaller tsVal = none
    ∧ SL.fatalTrace none msg keyvals rawCaller tsVal = [Event.exit 1] :=
  ⟨rfl, rfl, rfl, rfl, rfl, rfl⟩

/-- Counterexample for C2 as stated: `Fatal` invoked on the nil handle is
not free of side effects — it produces no write event but its trace still
ends in a request to terminate the process with status 1. -/
theorem nil_fatal_exits_cex :
    SL.fatalTrace none (str "boom") [] (str "c") (str "t") = [Event.exit 1]
    ∧ SL.fatalTrace none (str "boom") [] (str "c") (str "t") ≠ [] := by
  refine ⟨rfl, by decide⟩

/-- Claim C9: `Fatal` first performs the log write — every event preceding
the exit is a record write carrying the `fatal` level, which sits above
error — and only then requests termination, with exit status 1
unconditionally (on every receiver, nil included, and at every
threshold). -/
theorem fatal_logs_before_exit_status_one (l : Option SL) (msg : Str)
    (keyvals : List KV) (rawCaller tsVal : Str) :
    ∃ w : List Event,
      SL.fatalTrace l msg keyvals rawCaller tsVal = w ++ [Event.exit 1]
      ∧ (∀ e ∈ w, ∃ r, e = Event.write r
          ∧ r[1]? = some (str "level", levelName Level.Fatal))
      ∧ slogNum Level.Err < slogNum Level.Fatal := by
  cases l with
  | none => exact ⟨[], rfl, by simp, by decide⟩
  | some L =>
    simp only [SL.fatalTrace, SLlog]
    by_cases hc : L.minLevel ≤ slogNum Level.Fatal
    · rw [if_pos hc]
      refine ⟨[Event.write _], rfl, ?_, by decide⟩
      intro e he
      rw [List.mem_singleton] at he
      subst he
      exact ⟨_, rfl, rfl⟩
    · rw [if_neg hc]
      exact ⟨[], rfl, by simp, by decide⟩

/-- Claim C3, amended: the go-kit revision's logfmt records carry their
keys in the claimed order — `ts`, `caller`, the bound fields in binding
order (the static fields, then `src`), `level`, `msg`, then the call-site
fields.  The slog text revisions instead emit `ts`, `level`, `msg` first
(slog's built-in attributes), then the bound fields, then the call-site
fields, with the `caller` field appended last. -/
theorem logfmt_key_order_by_revision
    (static percall : List KV) (name levelStr msg tsVal callerVal : Str) (r : List KV)
    (hgk : GKL.info (gkNew name levelStr static tsVal callerVal) msg percall = some r)
    (sl : SL) (r2 : List KV) (hsc : sl.showCaller = true)
    (hsl : SL.info (some sl) msg percall callerVal tsVal = some r2) :
    r.map Prod.fst
      = specLogfmtKeyOrder (static.map Prod.fst ++ [str "src"]) (percall.map Prod.fst)
    ∧ r2.map Prod.fst
      = str "ts" :: str "level" :: str "msg"
        :: (sl.bound.map Prod.fst ++ percall.map Prod.fst ++ [str "caller"]) := by
  constructor
  · simp only [GKL.info, GKL.log, gkNew] at hgk
    split at hgk
    · cases hgk
    · rw [Option.some_inj] at hgk
      subst hgk
      simp [specLogfmtKeyOrder, GKL.source]
  · simp only [SL.info, SLlog] at hsl
    split at hsl
    · rw [Option.some_inj] at hsl
      subst hsl
      simp [hsc]
    · cases hsl

/-- Witness for C3's amended statement: the test fixture configuration,
with one static field, one call-site field and message `foo`, in both
revisions. -/
theorem logfmt_key_order_by_revision_witness :
    ((GKL.info (gkNew (str "somelogger") (str "info") [(str "key1", str "value1")]
          (str "T") (str "C")) (str "foo") [(str "key2", str "value2")]).map
        (fun rec => rec.map Prod.fst)
      = some (specLogfmtKeyOrder [str "key1", str "src"] [str "key2"]))
    ∧ ((SL.info (some slogEx) (str "foo") [(str "key2", str "value2")] (str "C")
          (str "T")).map (fun rec => rec.map Prod.fst)
      = some [str "ts", str "level", str "msg", str "key1", str "src", str "key2",
          str "caller"]) := by
  have h := logfmt_key_order_by_revision
    [(str "key1", str "value1")] [(str "key2", str "value2")]
    (str "somelogger") (str "info") (str "foo") (str "T") (str "C")
    ([(str "ts", str "T"), (str "caller", str "C"), (str "key1", str "value1"),
      (str "src", str "somelogger"), (str "level", str "info"), (str "msg", str "foo"),
      (str "key2", str "value2")])
    (by decide)
    slogEx
    ([(str "ts", str "T"), (str "level", str "info"), (str "msg", str "foo"),
      (str "key1", str "value1"), (str "src", str "somelogger"),
      (str "key2", str "value2"), (str "caller", str "C")])
    (by decide) (by decide)
  refine ⟨?_, ?_⟩
  · rw [show GKL.info (gkNew (str "somelogger") (str "info")
        [(str "key1", str "value1")] (str "T") (str "C")) (str "foo")
          [(str "key2", str "value2")]
      = some [(str "ts", str "T"), (str "caller", str "C"), (str "key1", str "value1"),
        (str "src", str "somelogger"), (str "level", str "info"), (str "msg", str "foo"),
        (str "key2", str "value2")] from by decide]
    simp only [Option.map_some']
    rw [h.1]
    decide
  · rw [show SL.info (some slogEx) (str "foo") [(str "key2", str "value2")] (str "C")
        (str "T")
      = some [(str "ts", str "T"), (str "level", str "info"), (str "msg", str "foo"),
        (str "key1", str "value1"), (str "src", str "somelogger"),
        (str "key2", str "value2"), (str "caller", str "C")] from by decide]
    simp only [Option.map_some']
    rw [h.2]
    decide

/-- Counterexample for C3 as stated: in the latest (slog text) revision
the emitted keys are not in the claimed order — `level` and `msg` precede
the bound fields and `caller` comes last instead of second. -/
theorem slog_key_order_cex :
    (SL.info (some slogEx) (str "foo") [(str "key2", str "value2")] (str "C")
        (str "T")).map (fun rec => rec.map Prod.fst)
      = some [str "ts", str "level", str "msg", str "key1", str "src", str "key2",
          str "caller"]
    ∧ (SL.info (some slogEx) (str "foo") [(str "key2", str "value2")] (str "C")
        (str "T")).map (fun rec => rec.map Prod.fst)
      ≠ some (specLogfmtKeyOrder [str "key1", str "src"] [str "key2"]) := by
  refine ⟨by decide, by decide⟩

/-- Claim C4: an emitted `LogError` record carries the `err` level, the
bound fields, the caller-supplied fields, and then the error fields: a
single `error` field with the error's message for a plain error; for a
multi-error, one `error_%02d`-keyed field per wrapped error with that
error's message, in the wrapped list's order, and none of these added
fields has the generic key `error`. -/
theorem logError_record_fields (L : SL) (msg : Str) (err : GoErr) (keyvals : List KV)
    (rawCaller tsVal : Str) (r : List KV)
    (h : SL.logError (some L) msg err keyvals rawCaller tsVal = some r) :
    r[1]? = some (str "level", levelName Level.Err)
    ∧ r = [(str "ts", tsVal), (str "level", levelName Level.Err), (str "msg", msg)]
        ++ L.bound
        ++ (if L.showCaller then
              (keyvals ++ errFields err)
                ++ [(str "caller", goTrimPre rawCaller L.callerPrefixTrim)]
            else keyvals ++ errFields err)
    ∧ (∀ m, err = GoErr.plain m → errFields err = [(str "error", m)])
    ∧ (∀ ws, err = GoErr.multi ws →
        (errFields err).length = ws.length
        ∧ (∀ i, (errFields err)[i]?
            = (ws[i]?).map (fun e => (str "error_" ++ pad2 i, e)))
        ∧ str "error" ∉ (errFields err).map Prod.fst) := by
  simp only [SL.logError, SLlog, logErrorKeyvals] at h
  split at h
  · rw [Option.some_inj] at h
    subst h
    refine ⟨rfl, ?_, ?_, ?_⟩
    · rfl
    · intro m hm
      subst hm
      rfl
    · intro ws hw
      subst hw
      refine ⟨by simp [errFields], ?_, ?_⟩
      · intro i
        cases hwi : ws[i]? with
        | none => simp [errFields, List.getElem?_map, List.getElem?_enum, hwi]
        | some e => simp [errFields, List.getElem?_map, List.getElem?_enum, hwi]
      · intro hmem
        rw [errFields, List.map_map, List.mem_map] at hmem
        obtain ⟨⟨i, e⟩, _, hk⟩ := hmem
        exact errorKey_ne_error i hk
  · cases h

/-- Witness for C4: the test fixture's multi-error of two wrapped errors,
producing `error_00` and `error_01` fields in order and no generic
`error` field. -/
theorem logError_record_fields_witness :
    ([(str "ts", str "T"), (str "level", str "err"), (str "msg", str "some error"),
        (str "key1", str "value1"), (str "src", str "somelogger"),
        (str "error_00", str "some err1"),
        (str "error_01", str "some err2")] : List KV)[1]?
      = some (str "level", levelName Level.Err)
    ∧ ([(str "ts", str "T"), (str "level", str "err"), (str "msg", str "some error"),
        (str "key1", str "value1"), (str "src", str "somelogger"),
        (str "error_00", str "some err1"), (str "error_01", str "some err2")] : List KV)
      = [(str "ts", str "T"), (str "level", levelName Level.Err),
          (str "msg", str "some error")]
        ++ slogExNoCaller.bound
        ++ (if slogExNoCaller.showCaller then
              ([] ++ errFields (GoErr.multi [str "some err1", str "some err2"]))
                ++ [(str "caller",
                      goTrimPre (str "C") slogExNoCaller.callerPrefixTrim)]
            else [] ++ errFields (GoErr.multi [str "some err1", str "some err2"]))
    ∧ (∀ m, GoErr.multi [str "some err1", str "some err2"] = GoErr.plain m →
        errFields (GoErr.multi [str "some err1", str "some err2"]) = [(str "error", m)])
    ∧ (∀ ws, GoErr.multi [str "some err1", str "some err2"] = GoErr.multi ws →
        (errFields (GoErr.multi [str "some err1", str "some err2"])).length = ws.length
        ∧ (∀ i, (errFields (GoErr.multi [str "some err1", str "some err2"]))[i]?
            = (ws[i]?).map (fun e => (str "error_" ++ pad2 i, e)))
        ∧ str "error"
            ∉ (errFields (GoErr.multi [str "some err1", str "some err2"])).map
                Prod.fst) :=
  logError_record_fields slogExNoCaller (str "some error")
    (GoErr.multi [str "some err1", str "some err2"]) [] (str "C") (str "T")
    ([(str "ts", str "T"), (str "level", str "err"), (str "msg", str "some error"),
      (str "key1", str "value1"), (str "src", str "somelogger"),
      (str "error_00", str "some err1"), (str "error_01", str "some err2")])
    (by decide)

theorem lastVal_append_src (kvs : List KV) (v : Str) :
    lastVal (str "src") (kvs ++ [(str "src", v)]) = some v := by
  simp only [lastVal, List.reverse_append, List.reverse_singleton, List.singleton_append]
  rw [List.find?_cons_of_pos]
  · rfl
  · simp

/-- Claim C5, amended: `P.New(n)` returns a handle whose source-segment
list is `P`'s with `n` appended and whose effective (last-bound) `src`
attribute equals the full dot-joined path, compounding further for
grandchildren.  In the latest revision the caller-display and
caller-prefix-trim settings are copied from the parent; in the earlier
slog revision the struct literal omits the caller flag, so the child's
caller display resets to off regardless of the parent's setting. -/
theorem sublogger_derivation (l : SL) (n m : Str) (lo : SLold) :
    (SL.newSub l n).src = l.src ++ [n]
    ∧ lastVal (str "src") (SL.newSub l n).bound = some (dotJoin (l.src ++ [n]))
    ∧ (SL.newSub (SL.newSub l n) m).src = l.src ++ [n, m]
    ∧ lastVal (str "src") (SL.newSub (SL.newSub l n) m).bound
        = some (dotJoin (l.src ++ [n, m]))
    ∧ (SL.newSub l n).showCaller = l.showCaller
    ∧ (SL.newSub l n).callerPrefixTrim = l.callerPrefixTrim
    ∧ (SLold.newSub lo n).src = lo.src ++ [n]
    ∧ (SLold.newSub lo n).showCaller = false := by
  refine ⟨rfl, ?_, ?_, ?_, rfl, rfl, rfl, rfl⟩
  · exact lastVal_append_src l.bound _
  · simp [SL.newSub, List.append_assoc]
  · have := lastVal_append_src (SL.newSub l n).bound (dotJoin ((l.src ++ [n]) ++ [m]))
    simp only [SL.newSub] at this ⊢
    rw [this]
    simp [List.append_assoc]

/-- Counterexample for C5 as stated: in the earlier slog revision, a
parent with caller display enabled derives a child whose caller-display
setting is off, so the child's settings are not identical to the
parent's. -/
theorem old_sublogger_resets_caller_cex :
    sloldEx.showCaller = true
    ∧ (SLold.newSub sloldEx (str "sublogger")).showCaller = false
    ∧ (SLold.newSub sloldEx (str "sublogger")).showCaller ≠ sloldEx.showCaller := by
  refine ⟨rfl, rfl, by decide⟩

theorem foldl_keyvals_of_not_with (opts : List OptM) (o : Options)
    (h : ∀ m ∈ opts, isWithKV m = false) :
    (List.foldl applyOpt o opts).keyvals = o.keyvals :=
  applyOpts_keyvals_of_not_with opts o h

/-- Claim C8: among the options handed to the constructor, the last
`With(...)` determines the logger's static field list outright — the
mutator assigns `o.keyvals = keyvals`, wholesale replacing whatever
earlier `With(...)` calls set — and the constructed logger's bound
attributes are exactly that list followed by the `src` attribute. -/
theorem with_option_replaces_wholesale (pre post : List OptM) (kvs : List KV)
    (procName : Str) (minLevel : Int)
    (hpost : ∀ m ∈ post, isWithKV m = false) :
    (applyOpts (pre ++ [OptM.withKV kvs] ++ post) (defaultOptions procName)).keyvals = kvs
    ∧ (slNew (pre ++ [OptM.withKV kvs] ++ post) procName minLevel).bound
      = kvs ++ [(str "src",
          (applyOpts (pre ++ [OptM.withKV kvs] ++ post)
            (defaultOptions procName)).name)] := by
  have h1 : (applyOpts (pre ++ [OptM.withKV kvs] ++ post)
      (defaultOptions procName)).keyvals = kvs := by
    unfold applyOpts
    rw [List.foldl_append, List.foldl_append,
      foldl_keyvals_of_not_with post _ hpost]
    rfl
  refine ⟨h1, ?_⟩
  show (applyOpts (pre ++ [OptM.withKV kvs] ++ post)
      (defaultOptions procName)).keyvals ++ _ = _
  rw [h1]

/-- Witness for C8: an earlier `With` and interleaved name/level options;
the static list is the last `With`'s list. -/
theorem with_option_replaces_wholesale_witness :
    (applyOpts ([OptM.withKV [(str "a", str "1")]]
        ++ [OptM.withKV [(str "key1", str "value1")]]
        ++ [OptM.withName (str "app"), OptM.withLevel (str "info")])
      (defaultOptions (str "proc"))).keyvals = [(str "key1", str "value1")]
    ∧ (slNew ([OptM.withKV [(str "a", str "1")]]
        ++ [OptM.withKV [(str "key1", str "value1")]]
        ++ [OptM.withName (str "app"), OptM.withLevel (str "info")])
      (str "proc") 0).bound
      = [(str "key1", str "value1")]
        ++ [(str "src",
            (applyOpts ([OptM.withKV [(str "a", str "1")]]
                ++ [OptM.withKV [(str "key1", str "value1")]]
                ++ [OptM.withName (str "app"), OptM.withLevel (str "info")])
              (defaultOptions (str "proc"))).name)] :=
  with_option_replaces_wholesale [OptM.withKV [(str "a", str "1")]]
    [OptM.withName (str "app"), OptM.withLevel (str "info")]
    [(str "key1", str "value1")] (str "proc") 0 (by decide)
